import Mathlib

/-!
Verification of the TI S1500 `unixtool` filesystem decode engine.

The development shallowly embeds `src/unixtool.c`. The backing disk image
is modelled as a flat byte store `img : Nat → Nat` (byte value at a byte
offset; values are clamped with `% 256` where the C code reads `uint8_t`).
Block-granular access (`disk_block_read`) is derived from the flat store,
exactly as in the C program where both raw `lseek` offsets (inode table)
and block-aligned offsets share one file descriptor.

Machine integers are modelled as `Nat` with explicit masking: every C
expression operating on `uint16_t`/`uint32_t` values is translated with
the same bit operations, and all values fed to them are below `2^16` /
`2^32` by construction.
-/

namespace Unixtool

/-- C `swap_word` (src/unixtool.c:99-108): reverse the four bytes of a
32-bit word. -/
def swap_word (x : Nat) : Nat :=
  ((x &&& 0xFF000000) >>> 24) ||| ((x &&& 0x00FF0000) >>> 8) |||
  ((x &&& 0x0000FF00) <<< 8) ||| ((x &&& 0x000000FF) <<< 24)

/-- C `swap_hword` (src/unixtool.c:110-117): reverse the two bytes of a
16-bit word. -/
def swap_hword (x : Nat) : Nat :=
  ((x &&& 0x00FF) <<< 8) ||| ((x &&& 0xFF00) >>> 8)

/-- In-memory inode, C struct `rInode` (src/unixtool.c:70-82).
`addr` holds the 13 reconstructed 24-bit disk addresses. -/
structure Inode where
  mode : Nat
  type : Nat
  nlink : Nat
  uid : Nat
  gid : Nat
  size : Nat
  addr : List Nat
  atime : Nat
  mtime : Nat
  ctime : Nat
deriving DecidableEq

/-- Byte of the image at offset `k`, clamped to `uint8_t` range. -/
def byteAt (img : Nat → Nat) (k : Nat) : Nat := img k % 256

/-- Little-endian (host order) load of a `uint16_t` at byte offset `k`,
as the C program obtains on-disk 16-bit fields by struct overlay. -/
def load16 (img : Nat → Nat) (k : Nat) : Nat :=
  byteAt img k + 2 ^ 8 * byteAt img (k + 1)

/-- Little-endian (host order) load of a `uint32_t` at byte offset `k`. -/
def load32 (img : Nat → Nat) (k : Nat) : Nat :=
  byteAt img k + 2 ^ 8 * byteAt img (k + 1) +
  2 ^ 16 * byteAt img (k + 2) + 2 ^ 24 * byteAt img (k + 3)

/-- C `read_inode` (src/unixtool.c:120-179): decode the 64-byte on-disk
inode record number `number`, located at byte offset `0x7C0 + number * 0x40`
of the image.  Field for field the same expressions as the C code:
mode/type unpacked from the 16-bit mode word, 16-bit fields through
`swap_hword`, 32-bit fields through `swap_word`, and the 13 block
addresses from 3 packed bytes each. -/
def read_inode (img : Nat → Nat) (number : Nat) : Inode :=
  let off := 0x7C0 + number * 0x40
  let rawMode := load16 img off
  { mode := ((rawMode &&& 0xFF00) >>> 8) ||| ((rawMode &&& 0x000F) <<< 8)
    type := (rawMode &&& 0x00F0) >>> 4
    nlink := swap_hword (load16 img (off + 2))
    uid := swap_hword (load16 img (off + 4))
    gid := swap_hword (load16 img (off + 6))
    size := swap_word (load32 img (off + 8))
    addr := (List.range 13).map fun x =>
      ((byteAt img (off + 12 + x * 3)) <<< 16) |||
      ((byteAt img (off + 12 + x * 3 + 1)) <<< 8) |||
      byteAt img (off + 12 + x * 3 + 2)
    atime := swap_word (load32 img (off + 52))
    mtime := swap_word (load32 img (off + 56))
    ctime := swap_word (load32 img (off + 60)) }

/-- A block-granular view of a disk: block number to byte-offset-in-block
to byte value. -/
abbrev Disk := Nat → Nat → Nat

/-- The block view of a flat image: `disk_block_read(adr, ...)` seeks to
`adr * 0x400` and reads 1024 bytes (src/unixtool.c:181-204). -/
def diskOf (img : Nat → Nat) : Disk := fun b k => img (1024 * b + k)

/-- Entry `j` of an indirect block as the C code reads it: the block is
overlaid as `uint32_t[256]`, so entry `j` is the host (little-endian) load
of the four bytes at offset `4*j`, to which `swap_word` is then applied
(src/unixtool.c:239, 263, 270). -/
def indirectEntry (blk : Nat → Nat) (j : Nat) : Nat :=
  swap_word (blk (4 * j) % 256 + 2 ^ 8 * (blk (4 * j + 1) % 256) +
    2 ^ 16 * (blk (4 * j + 2) % 256) + 2 ^ 24 * (blk (4 * j + 3) % 256))

/-- Outcome of `inode_block_read`: `ok b` means the function went on to
`disk_block_read(b, buf)` and returned its (positive, in the ideal disk
model) result; `eof` is the C `return 0`; `unsupported` is the
`Further indirection required` failure (`return -1`). -/
inductive BlockRes where
  | ok (phys : Nat)
  | eof
  | unsupported
deriving DecidableEq

/-- C `inode_block_read` (src/unixtool.c:206-289) over an ideal
(error-free) disk.  Returns the resolution outcome together with the list
of indirect blocks it read (the arguments of the `disk_block_read` calls
made for indirect tables, in order), so that the amount of indirect I/O
is part of the model.
Direct range `adr < 10`: `inode->addr[adr]`, zero meaning EOF.
Single indirection `adr < 266`: indirect table at `inode->addr[10]`,
entry `adr - 10`.  Double indirection `adr < 65802`: first-level table at
`inode->addr[11]`, entry `(adr-266)/256`, then the named second-level
table, entry `(adr-266) - ((adr-266)/256)*256`.  No zero test is
performed on either indirection path. -/
def inode_block_read (disk : Disk) (adr : Nat) (ino : Inode) :
    BlockRes × List Nat :=
  if adr < 10 then
    let block := ino.addr.getD adr 0
    if block > 0 then (.ok block, []) else (.eof, [])
  else if adr < 266 then
    let indirect_offset := adr - 10
    let block := indirectEntry (disk (ino.addr.getD 10 0)) indirect_offset
    (.ok block, [ino.addr.getD 10 0])
  else if adr < 65802 then
    let first_indirect_offset := (adr - 266) / 256
    let second_indirect_offset := (adr - 266) - first_indirect_offset * 256
    let fb := indirectEntry (disk (ino.addr.getD 11 0)) first_indirect_offset
    let block := indirectEntry (disk fb) second_indirect_offset
    (.ok block, [ino.addr.getD 11 0, fb])
  else (.unsupported, [])

/- ### Bit-manipulation helper lemmas -/

theorem and_ff00_shr8 (r : Nat) : (r &&& 0xFF00) >>> 8 = (r >>> 8) &&& 0xFF := by
  have h1 : (0xFF00 : Nat) = (2 ^ 8 - 1) <<< 8 := by rw [Nat.shiftLeft_eq]; norm_num
  have h2 : (0xFF : Nat) = 2 ^ 8 - 1 := by norm_num
  apply Nat.eq_of_testBit_eq
  intro i
  simp only [Nat.testBit_shiftRight, Nat.testBit_and, h1, h2, Nat.testBit_shiftLeft,
    Nat.testBit_two_pow_sub_one, Nat.add_sub_cancel_left]
  simp [Nat.le_add_right]

theorem and_f0_shr4 (r : Nat) : (r &&& 0x00F0) >>> 4 = (r >>> 4) &&& 0x0F := by
  have h1 : (0x00F0 : Nat) = (2 ^ 4 - 1) <<< 4 := by rw [Nat.shiftLeft_eq]; norm_num
  have h2 : (0x0F : Nat) = 2 ^ 4 - 1 := by norm_num
  apply Nat.eq_of_testBit_eq
  intro i
  simp only [Nat.testBit_shiftRight, Nat.testBit_and, h1, h2, Nat.testBit_shiftLeft,
    Nat.testBit_two_pow_sub_one, Nat.add_sub_cancel_left]
  simp [Nat.le_add_right]

theorem range_map_getD {α : Type} (f : Nat → α) (d : α) (n k : Nat) (hk : k < n) :
    (((List.range n).map f).getD k d) = f k := by
  rw [List.getD_eq_getElem?_getD]
  rw [List.getElem?_map, List.getElem?_range hk]
  rfl

/- ### Claim C3 -/

/-- Claim C3: reading inode `n` decodes the 64-byte record at image byte
offset `0x7C0 + n * 0x40`: in-memory mode is
`((raw16 >> 8) & 0xFF) | ((raw16 & 0x0F) << 8)` and type is
`(raw16 >> 4) & 0x0F` of the on-disk 16-bit mode word; nlink, uid, gid
are the byte-swapped on-disk 16-bit values; size, atime, mtime, ctime the
byte-swapped on-disk 32-bit values; and address `k` (`k < 13`) is
`(b0 << 16) | (b1 << 8) | b2` of the raw bytes at positions `3k`, `3k+1`,
`3k+2` of the 39-byte address area starting 12 bytes into the record. -/
theorem read_inode_decode (img : Nat → Nat) (n : Nat) :
    (read_inode img n).mode =
      (((load16 img (0x7C0 + n * 0x40)) >>> 8) &&& 0xFF) |||
        (((load16 img (0x7C0 + n * 0x40)) &&& 0x0F) <<< 8) ∧
    (read_inode img n).type = ((load16 img (0x7C0 + n * 0x40)) >>> 4) &&& 0x0F ∧
    (read_inode img n).nlink = swap_hword (load16 img (0x7C0 + n * 0x40 + 2)) ∧
    (read_inode img n).uid = swap_hword (load16 img (0x7C0 + n * 0x40 + 4)) ∧
    (read_inode img n).gid = swap_hword (load16 img (0x7C0 + n * 0x40 + 6)) ∧
    (read_inode img n).size = swap_word (load32 img (0x7C0 + n * 0x40 + 8)) ∧
    (read_inode img n).atime = swap_word (load32 img (0x7C0 + n * 0x40 + 52)) ∧
    (read_inode img n).mtime = swap_word (load32 img (0x7C0 + n * 0x40 + 56)) ∧
    (read_inode img n).ctime = swap_word (load32 img (0x7C0 + n * 0x40 + 60)) ∧
    ∀ k, k < 13 → (read_inode img n).addr.getD k 0 =
      ((byteAt img (0x7C0 + n * 0x40 + 12 + 3 * k)) <<< 16) |||
        ((byteAt img (0x7C0 + n * 0x40 + 12 + 3 * k + 1)) <<< 8) |||
        byteAt img (0x7C0 + n * 0x40 + 12 + 3 * k + 2) := by
  refine ⟨?_, ?_, rfl, rfl, rfl, rfl, rfl, rfl, rfl, ?_⟩
  · simp only [read_inode]
    rw [and_ff00_shr8]
  · simp only [read_inode]
    rw [and_f0_shr4]
  · intro k hk
    simp only [read_inode]
    rw [range_map_getD _ _ _ _ hk]
    simp [Nat.mul_comm k 3, Nat.add_assoc]

/-- Concrete instance of `read_inode_decode` with the bound `k < 13`
discharged at `k = 5`. -/
theorem read_inode_decode_witness :
    (read_inode (fun k => k) 1).addr.getD 5 0 =
      ((byteAt (fun k => k) (0x7C0 + 1 * 0x40 + 12 + 3 * 5)) <<< 16) |||
        ((byteAt (fun k => k) (0x7C0 + 1 * 0x40 + 12 + 3 * 5 + 1)) <<< 8) |||
        byteAt (fun k => k) (0x7C0 + 1 * 0x40 + 12 + 3 * 5 + 2) :=
  (read_inode_decode (fun k => k) 1).2.2.2.2.2.2.2.2.2 5 (by decide)

/- ### Claim C1 -/

/-- Case analysis of `inode_block_read` by index range (shared helper). -/
theorem inode_block_read_cases (disk : Disk) (ino : Inode) (i : Nat) :
    (i < 10 → inode_block_read disk i ino =
      ((if 0 < ino.addr.getD i 0 then .ok (ino.addr.getD i 0) else .eof), [])) ∧
    (10 ≤ i → i < 266 → inode_block_read disk i ino =
      (.ok (indirectEntry (disk (ino.addr.getD 10 0)) (i - 10)),
        [ino.addr.getD 10 0])) ∧
    (266 ≤ i → i < 65802 → inode_block_read disk i ino =
      (.ok (indirectEntry
          (disk (indirectEntry (disk (ino.addr.getD 11 0)) ((i - 266) / 256)))
          ((i - 266) - ((i - 266) / 256) * 256)),
        [ino.addr.getD 11 0,
          indirectEntry (disk (ino.addr.getD 11 0)) ((i - 266) / 256)])) ∧
    (65802 ≤ i → inode_block_read disk i ino = (.unsupported, [])) := by
  refine ⟨?_, ?_, ?_, ?_⟩
  · intro h
    simp only [inode_block_read, if_pos h]
    by_cases h0 : 0 < ino.addr.getD i 0
    · rw [if_pos h0, if_pos h0]
    · rw [if_neg h0, if_neg h0]
  · intro h1 h2
    have h3 : ¬ i < 10 := by omega
    simp [inode_block_read, h3, h2]
  · intro h1 h2
    have h3 : ¬ i < 10 := by omega
    have h4 : ¬ i < 266 := by omega
    simp [inode_block_read, h3, h4, h2]
  · intro h1
    have h3 : ¬ i < 10 := by omega
    have h4 : ¬ i < 266 := by omega
    have h5 : ¬ i < 65802 := by omega
    simp [inode_block_read, h3, h4, h5]

/-- Claim C1: block resolution follows the range arithmetic of the code:
`i < 10` resolves to `inode.addr[i]` (zero meaning EOF) with no indirect
block read; `10 <= i < 266` reads exactly one indirect block, at
`inode.addr[10]`, and returns the byte-swapped entry at offset `i - 10`;
`266 <= i < 65802` reads exactly two indirect blocks (first-level at
`inode.addr[11]`, then the block named by entry `(i-266)/256`) and
returns the byte-swapped entry at offset `(i-266) - ((i-266)/256)*256`;
`i >= 65802` fails (unsupported indirection). -/
theorem inode_block_read_range_resolution (disk : Disk) (ino : Inode) (i : Nat) :
    (i < 10 → inode_block_read disk i ino =
      ((if 0 < ino.addr.getD i 0 then .ok (ino.addr.getD i 0) else .eof), [])) ∧
    (10 ≤ i → i < 266 → inode_block_read disk i ino =
      (.ok (indirectEntry (disk (ino.addr.getD 10 0)) (i - 10)),
        [ino.addr.getD 10 0])) ∧
    (266 ≤ i → i < 65802 → inode_block_read disk i ino =
      (.ok (indirectEntry
          (disk (indirectEntry (disk (ino.addr.getD 11 0)) ((i - 266) / 256)))
          ((i - 266) - ((i - 266) / 256) * 256)),
        [ino.addr.getD 11 0,
          indirectEntry (disk (ino.addr.getD 11 0)) ((i - 266) / 256)])) ∧
    (65802 ≤ i → inode_block_read disk i ino = (.unsupported, [])) :=
  inode_block_read_cases disk ino i

/-- Test disk for the resolver claims: byte `k` of block `b` is
`(b + k) % 256`. -/
def diskW : Disk := fun b k => (b + k) % 256

/-- Test inode for the resolver claims. -/
def inoW : Inode :=
  { mode := 0o644, type := 8, nlink := 1, uid := 0, gid := 0, size := 2048
    addr := [3, 4, 5, 6, 7, 8, 9, 10, 11, 12, 13, 14, 0]
    atime := 0, mtime := 0, ctime := 0 }

/-- Concrete instances of `inode_block_read_range_resolution` at one
index of every range. -/
theorem inode_block_read_range_resolution_witness :
    inode_block_read diskW 4 inoW = (.ok 7, []) ∧
    inode_block_read diskW 12 inoW =
      (.ok (indirectEntry (diskW 13) 2), [13]) ∧
    inode_block_read diskW 300 inoW =
      (.ok (indirectEntry (diskW (indirectEntry (diskW 14) 0)) 34),
        [14, indirectEntry (diskW 14) 0]) ∧
    inode_block_read diskW 70000 inoW = (.unsupported, []) := by
  have h := inode_block_read_range_resolution diskW inoW
  refine ⟨?_, ?_, ?_, ?_⟩
  · rw [(h 4).1 (by decide)]; decide
  · rw [(h 12).2.1 (by decide) (by decide)]; decide
  · rw [(h 300).2.2.1 (by decide) (by decide)]; decide
  · exact (h 70000).2.2.2 (by decide)

/- ### Claim C2 -/

/-- Disk whose every byte is zero. -/
def diskZero : Disk := fun _ _ => 0

/-- Inode whose single- and double-indirect slots point at blocks 3 and 4
while every direct slot is populated. -/
def inoInd : Inode :=
  { mode := 0o644, type := 8, nlink := 1, uid := 0, gid := 0, size := 300000
    addr := [1, 1, 1, 1, 1, 1, 1, 1, 1, 1, 3, 4, 0]
    atime := 0, mtime := 0, ctime := 0 }

/-- Claim C2 counterexample: on the indirect paths a resolved physical
block value of 0 is NOT treated as hole/EOF.  With an all-zero indirect
table, logical index 10 (single indirection) and 266 (double indirection)
resolve to `.ok 0` — the code goes on to `disk_block_read(0, buf)` and
returns block 0 content as data — instead of signalling EOF as the claim
states. -/
theorem indirect_zero_not_eof_cex :
    (inode_block_read diskZero 10 inoInd).fst = .ok 0 ∧
    (inode_block_read diskZero 10 inoInd).fst ≠ .eof ∧
    (inode_block_read diskZero 266 inoInd).fst = .ok 0 ∧
    (inode_block_read diskZero 266 inoInd).fst ≠ .eof := by decide

/-- Claim C2 (amended): a physical block value of 0 is treated as
hole/EOF only on the direct path (`i < 10`); on the single- and
double-indirect paths a zero entry is not detected — the resolver returns
`.ok 0`, so physical block 0 is read and its content returned as data. -/
theorem zero_block_eof_direct_only (disk : Disk) (ino : Inode) (i : Nat) :
    (i < 10 → ino.addr.getD i 0 = 0 →
      (inode_block_read disk i ino).fst = .eof) ∧
    (i < 10 → 0 < ino.addr.getD i 0 →
      (inode_block_read disk i ino).fst = .ok (ino.addr.getD i 0)) ∧
    (10 ≤ i → i < 266 →
      indirectEntry (disk (ino.addr.getD 10 0)) (i - 10) = 0 →
      (inode_block_read disk i ino).fst = .ok 0) ∧
    (266 ≤ i → i < 65802 →
      indirectEntry
          (disk (indirectEntry (disk (ino.addr.getD 11 0)) ((i - 266) / 256)))
          ((i - 266) - ((i - 266) / 256) * 256) = 0 →
      (inode_block_read disk i ino).fst = .ok 0) := by
  have h := inode_block_read_cases disk ino i
  refine ⟨?_, ?_, ?_, ?_⟩
  · intro h1 h2
    rw [h.1 h1, h2]
    simp
  · intro h1 h2
    rw [h.1 h1, if_pos h2]
  · intro h1 h2 h3
    rw [h.2.1 h1 h2, h3]
  · intro h1 h2 h3
    rw [h.2.2.1 h1 h2, h3]

/-- Inode with a hole in every direct slot. -/
def inoHole : Inode :=
  { mode := 0o644, type := 8, nlink := 1, uid := 0, gid := 0, size := 100
    addr := [0, 0, 0, 0, 0, 0, 0, 0, 0, 0, 0, 0, 0]
    atime := 0, mtime := 0, ctime := 0 }

/-- Concrete instances of `zero_block_eof_direct_only`: a zero direct
slot yields EOF, a zero indirect entry yields `.ok 0`. -/
theorem zero_block_eof_direct_only_witness :
    (inode_block_read diskZero 3 inoHole).fst = .eof ∧
    (inode_block_read diskZero 5 inoInd).fst = .ok 1 ∧
    (inode_block_read diskZero 11 inoInd).fst = .ok 0 ∧
    (inode_block_read diskZero 270 inoInd).fst = .ok 0 := by
  refine ⟨?_, ?_, ?_, ?_⟩
  · exact (zero_block_eof_direct_only diskZero inoHole 3).1 (by decide) (by decide)
  · exact (zero_block_eof_direct_only diskZero inoInd 5).2.1 (by decide) (by decide)
  · exact (zero_block_eof_direct_only diskZero inoInd 11).2.2.1
      (by decide) (by decide) (by decide)
  · exact (zero_block_eof_direct_only diskZero inoInd 270).2.2.2
      (by decide) (by decide) (by decide)

/- ### Claim C4 -/

/-- Content of physical block `b` as a list of 1024 bytes, as
`disk_block_read(b, buf)` fills `buf` on an ideal disk. -/
def blockBytes (disk : Disk) (b : Nat) : List Nat :=
  (List.range 1024).map fun k => disk b k % 256

theorem blockBytes_length (disk : Disk) (b : Nat) :
    (blockBytes disk b).length = 1024 := by
  simp [blockBytes]

/-- Error outcomes of the `unix_read` copy loop: `unexpectedEOF` is the
`unixtool: Unexpected end-of-file` path (`rv == 0`), `unsupported` the
propagated negative return of `inode_block_read`. -/
inductive ExtractErr where
  | unexpectedEOF
  | unsupported
deriving DecidableEq

deriving instance DecidableEq for Except

/-- The copy loop of C `unix_read` (src/unixtool.c:682-713): while fewer
than `file_inode.size` bytes have been produced, resolve the next logical
block and emit its first `osize` bytes, where `osize` is 1024 except for
a final partial block.  `fuel` bounds the iteration count; each iteration
emits at least one byte, so `ino.size + 1` iterations always suffice and
the `fuel = 0` branch is unreachable from `unix_read_copy`. -/
def copyGo (disk : Disk) (ino : Inode) : Nat → Nat → Nat → Except ExtractErr (List Nat)
  | 0, _, _ => .error .unexpectedEOF
  | fuel + 1, x, fileblock =>
    if x < ino.size then
      let osize := if ino.size - x < 1024 then ino.size - x else 1024
      match (inode_block_read disk fileblock ino).fst with
      | .ok phys =>
        match copyGo disk ino fuel (x + osize) (fileblock + 1) with
        | .ok rest => .ok ((blockBytes disk phys).take osize ++ rest)
        | .error e => .error e
      | .eof => .error .unexpectedEOF
      | .unsupported => .error .unsupported
    else .ok []

/-- The full copy loop, started like the C code at `x = 0`,
`fileblock = 0`. -/
def unix_read_copy (disk : Disk) (ino : Inode) : Except ExtractErr (List Nat) :=
  copyGo disk ino (ino.size + 1) 0 0

/-- The physical block the resolver yields for logical index `j`
(0 when it yields EOF or an error). -/
def resolvedBlock (disk : Disk) (ino : Inode) (j : Nat) : Nat :=
  match (inode_block_read disk j ino).fst with
  | .ok b => b
  | _ => 0

/-- Concatenation of the contents of `n` consecutively resolved logical
blocks starting at index `fb`. -/
def chunks (disk : Disk) (ino : Inode) : Nat → Nat → List Nat
  | _, 0 => []
  | fb, n + 1 =>
    blockBytes disk (resolvedBlock disk ino fb) ++ chunks disk ino (fb + 1) n

/-- The bytes the specification expects extraction to write: the first
`size` bytes of the file's blocks in logical order, `ceil(size/1024)`
blocks in all. -/
def fileBytesSpec (disk : Disk) (ino : Inode) : List Nat :=
  (chunks disk ino 0 ((ino.size + 1023) / 1024)).take ino.size

theorem chunks_length (disk : Disk) (ino : Inode) :
    ∀ n fb, (chunks disk ino fb n).length = 1024 * n := by
  intro n
  induction n with
  | zero => intro fb; rfl
  | succ n ih =>
    intro fb
    simp only [chunks, List.length_append, blockBytes_length, ih]
    ring

theorem chunks_take_congr (disk : Disk) (ino : Inode) :
    ∀ n m fb s, s ≤ 1024 * n → s ≤ 1024 * m →
      (chunks disk ino fb n).take s = (chunks disk ino fb m).take s := by
  intro n
  induction n with
  | zero =>
    intro m fb s hn hm
    have hs : s = 0 := by omega
    simp [hs]
  | succ n ih =>
    intro m fb s hn hm
    match m with
    | 0 =>
      have hs : s = 0 := by omega
      simp [hs]
    | m + 1 =>
      simp only [chunks]
      rw [List.take_append_eq_append_take, List.take_append_eq_append_take]
      simp only [blockBytes_length]
      exact congrArg
        (fun t => (blockBytes disk (resolvedBlock disk ino fb)).take s ++ t)
        (ih m (fb + 1) (s - 1024) (by omega) (by omega))

theorem chunks_getD (disk : Disk) (ino : Inode) :
    ∀ n fb k, k < 1024 * n →
      (chunks disk ino fb n).getD k 0 =
        disk (resolvedBlock disk ino (fb + k / 1024)) (k % 1024) % 256 := by
  intro n
  induction n with
  | zero => intro fb k hk; omega
  | succ n ih =>
    intro fb k hk
    simp only [chunks, List.getD_eq_getElem?_getD]
    by_cases hk2 : k < 1024
    · rw [List.getElem?_append_left (by rw [blockBytes_length]; exact hk2)]
      have e1 : fb + k / 1024 = fb := by omega
      have e2 : k % 1024 = k := by omega
      rw [e1, e2]
      simp only [blockBytes, List.getElem?_map, List.getElem?_range hk2]
      rfl
    · rw [List.getElem?_append_right (by rw [blockBytes_length]; omega)]
      rw [blockBytes_length]
      have := ih (fb + 1) (k - 1024) (by omega)
      rw [List.getD_eq_getElem?_getD] at this
      rw [this]
      have e1 : fb + 1 + (k - 1024) / 1024 = fb + k / 1024 := by omega
      have e2 : (k - 1024) % 1024 = k % 1024 := by omega
      rw [e1, e2]

theorem copyGo_spec (disk : Disk) (ino : Inode) :
    ∀ fuel x fb,
      ino.size - x < fuel →
      (1024 * fb ≤ x ∨ ino.size ≤ x) →
      (∀ j, fb ≤ j → 1024 * j < ino.size →
        ∃ b, (inode_block_read disk j ino).fst = BlockRes.ok b) →
      copyGo disk ino fuel x fb =
        .ok ((chunks disk ino fb fuel).take (ino.size - x)) := by
  intro fuel
  induction fuel with
  | zero => intro x fb h1 _ _; omega
  | succ fuel ih =>
    intro x fb h1 h2 h3
    by_cases hx : x < ino.size
    · have hfb : 1024 * fb ≤ x := by
        rcases h2 with h | h
        · exact h
        · omega
      obtain ⟨b, hb⟩ := h3 fb (Nat.le_refl fb) (by omega)
      have hrb : resolvedBlock disk ino fb = b := by
        unfold resolvedBlock
        rw [hb]
      simp only [copyGo, if_pos hx, hb]
      by_cases hos : ino.size - x < 1024
      · have hrec := ih (x + (ino.size - x)) (fb + 1) (by omega) (Or.inr (by omega))
          (fun j hj hsz => h3 j (by omega) hsz)
        simp only [if_pos hos]
        rw [hrec]
        have hz : ino.size - (x + (ino.size - x)) = 0 := by omega
        rw [hz]
        simp only [List.take_zero]
        simp only [chunks]
        rw [List.take_append_eq_append_take, hrb, blockBytes_length]
        have hz2 : ino.size - x - 1024 = 0 := by omega
        rw [hz2]
        simp
      · have hrec := ih (x + 1024) (fb + 1) (by omega) (Or.inl (by omega))
          (fun j hj hsz => h3 j (by omega) hsz)
        simp only [if_neg hos]
        rw [hrec]
        simp only [chunks]
        rw [List.take_append_eq_append_take, hrb, blockBytes_length]
        have e1 : ino.size - x - 1024 = ino.size - (x + 1024) := by omega
        rw [e1]
        have e2 : (blockBytes disk b).take 1024 = blockBytes disk b := by
          rw [List.take_of_length_le (by rw [blockBytes_length])]
        have e3 : (blockBytes disk b).take (ino.size - x) = blockBytes disk b := by
          rw [List.take_of_length_le (by rw [blockBytes_length]; omega)]
        rw [e2, e3]
    · have hz : ino.size - x = 0 := by omega
      simp [copyGo, hx, hz]

theorem copyGo_eof (disk : Disk) (ino : Inode) (j : Nat) :
    ∀ fuel fb x,
      ino.size - x < fuel →
      x = 1024 * fb →
      fb ≤ j →
      1024 * j < ino.size →
      (inode_block_read disk j ino).fst = BlockRes.eof →
      (∀ i, fb ≤ i → i < j →
        ∃ b, (inode_block_read disk i ino).fst = BlockRes.ok b) →
      copyGo disk ino fuel x fb = .error .unexpectedEOF := by
  intro fuel
  induction fuel with
  | zero => intro fb x h1 _ _ _ _ _; omega
  | succ fuel ih =>
    intro fb x h1 hx hfj hjsz heof hok
    have hxlt : x < ino.size := by
      subst hx
      have : 1024 * fb ≤ 1024 * j := Nat.mul_le_mul_left 1024 hfj
      omega
    by_cases hfbj : fb = j
    · subst hfbj
      simp only [copyGo, if_pos hxlt, heof]
    · obtain ⟨b, hb⟩ := hok fb (Nat.le_refl fb) (by omega)
      have hos : ¬ ino.size - x < 1024 := by
        subst hx
        have : 1024 * (fb + 1) ≤ 1024 * j := by
          apply Nat.mul_le_mul_left
          omega
        omega
      simp only [copyGo, if_pos hxlt, hb, if_neg hos]
      rw [ih (fb + 1) (x + 1024) (by omega) (by omega) (by omega) hjsz heof
        (fun i hi hij => hok i (by omega) hij)]

/-- Claim C4: for a file inode whose address map supplies a resolvable
block for every logical index below `ceil(size/1024)`, the copy loop of
`unix_read` produces exactly `size` bytes — byte for byte the first
`size` bytes of the file's blocks in logical order, with only
`size mod 1024` bytes of the final block when `size` is not
block-aligned — and if the resolver signals EOF at some index inside the
file instead, the loop fails with `unexpectedEOF`. -/
theorem unix_read_copy_exact (disk : Disk) (ino : Inode) :
    ((∀ j, 1024 * j < ino.size →
        ∃ b, (inode_block_read disk j ino).fst = BlockRes.ok b) →
      unix_read_copy disk ino = .ok (fileBytesSpec disk ino) ∧
      (fileBytesSpec disk ino).length = ino.size ∧
      (∀ k, k < ino.size → (fileBytesSpec disk ino).getD k 0 =
        disk (resolvedBlock disk ino (k / 1024)) (k % 1024) % 256)) ∧
    (∀ j, 1024 * j < ino.size →
      (inode_block_read disk j ino).fst = BlockRes.eof →
      (∀ i, i < j → ∃ b, (inode_block_read disk i ino).fst = BlockRes.ok b) →
      unix_read_copy disk ino = .error .unexpectedEOF) := by
  constructor
  · intro hall
    have h1 : unix_read_copy disk ino =
        .ok ((chunks disk ino 0 (ino.size + 1)).take (ino.size - 0)) := by
      apply copyGo_spec disk ino (ino.size + 1) 0 0 (by omega) (Or.inl (by omega))
      intro j _ hsz
      exact hall j hsz
    have h2 : (chunks disk ino 0 (ino.size + 1)).take (ino.size - 0) =
        fileBytesSpec disk ino := by
      unfold fileBytesSpec
      rw [Nat.sub_zero]
      exact chunks_take_congr disk ino (ino.size + 1) ((ino.size + 1023) / 1024) 0
        ino.size (by omega) (by omega)
    refine ⟨by rw [h1, h2], ?_, ?_⟩
    · unfold fileBytesSpec
      rw [List.length_take, chunks_length]
      omega
    · intro k hk
      unfold fileBytesSpec
      rw [List.getD_eq_getElem?_getD, List.getElem?_take_of_lt hk,
        ← List.getD_eq_getElem?_getD]
      have := chunks_getD disk ino ((ino.size + 1023) / 1024) 0 k (by omega)
      rw [this]
      simp
  · intro j hj heof hok
    exact copyGo_eof disk ino j (ino.size + 1) 0 0 (by omega) (by omega)
      (by omega) hj heof (fun i _ hij => hok i hij)

/-- Test disk for the extraction claims: block 5 holds bytes
`0, 1, 2, ...`; everything else is zero. -/
def diskC : Disk := fun b k => if b = 5 then k % 256 else 0

/-- A 3-byte file stored in direct block 5. -/
def inoC : Inode :=
  { mode := 0o644, type := 8, nlink := 1, uid := 0, gid := 0, size := 3
    addr := [5, 0, 0, 0, 0, 0, 0, 0, 0, 0, 0, 0, 0]
    atime := 0, mtime := 0, ctime := 0 }

set_option maxRecDepth 20000 in
/-- Concrete instance of `unix_read_copy_exact`: the 3-byte file in
`diskC`/`inoC` extracts to exactly its first three bytes, and an inode
claiming 3 bytes with no block at all fails with `unexpectedEOF`. -/
theorem unix_read_copy_exact_witness :
    unix_read_copy diskC inoC = .ok [0, 1, 2] ∧
    unix_read_copy diskC { inoC with addr := [0, 0, 0, 0, 0, 0, 0, 0, 0, 0, 0, 0, 0] } =
      .error .unexpectedEOF := by
  constructor
  · have h := (unix_read_copy_exact diskC inoC).1 (by
      intro j hj
      have hs : inoC.size = 3 := rfl
      have hj0 : j = 0 := by omega
      subst hj0
      exact ⟨5, by decide⟩)
    rw [h.1]
    exact congrArg Except.ok (by decide)
  · apply (unix_read_copy_exact diskC _).2 0 (by decide) (by decide)
    intro i hi
    omega

/- ### Claim C5 -/

/-- Raw (host little-endian) inode-number field of directory entry `x` of
a 1024-byte block: the C code overlays `Dirent` records of 16 bytes and
tests `dir_entry->inode != 0` on this raw value. -/
def direntInoRaw (blk : Nat → Nat) (x : Nat) : Nat :=
  blk (16 * x) % 256 + 256 * (blk (16 * x + 1) % 256)

/-- The 14-byte name field of directory entry `x`. -/
def direntName (blk : Nat → Nat) (x : Nat) : List Nat :=
  (List.range 14).map fun k => blk (16 * x + 2 + k) % 256

/-- The directory scan loop `while (dir_entry->inode != 0 && x < 64)` of
`unix_ls` (src/unixtool.c:421-521): yields the entries in order (logical
inode number obtained through `swap_hword`, plus the raw name field),
stopping at the first zero-inode entry or after `fuel` entries.  Called
with `fuel = 64`. -/
def listGo (blk : Nat → Nat) : Nat → Nat → List (Nat × List Nat)
  | _, 0 => []
  | x, fuel + 1 =>
    if direntInoRaw blk x = 0 then []
    else (swap_hword (direntInoRaw blk x), direntName blk x) :: listGo blk (x + 1) fuel

/-- Scan of one 1024-byte directory block (64 entries of 16 bytes). -/
def scanBlock (blk : Nat → Nat) : List (Nat × List Nat) := listGo blk 0 64

/-- The `if (x < 64) done = 1; else dirblock++;` decision after the scan
loop (src/unixtool.c:522-531): the scan advances to the directory's next
logical block exactly when all 64 entries were consumed. -/
def scanAdvances (blk : Nat → Nat) : Bool := (scanBlock blk).length == 64

theorem listGo_stop (blk : Nat → Nat) (x fuel : Nat)
    (h : direntInoRaw blk x = 0) : listGo blk x (fuel + 1) = [] := by
  simp [listGo, h]

theorem listGo_step (blk : Nat → Nat) (x fuel : Nat)
    (h : direntInoRaw blk x ≠ 0) :
    listGo blk x (fuel + 1) =
      (swap_hword (direntInoRaw blk x), direntName blk x) :: listGo blk (x + 1) fuel := by
  simp [listGo, h]

theorem listGo_all (blk : Nat → Nat) :
    ∀ fuel x, (∀ y, x ≤ y → y < x + fuel → direntInoRaw blk y ≠ 0) →
      listGo blk x fuel = (List.range fuel).map
        (fun i => (swap_hword (direntInoRaw blk (x + i)), direntName blk (x + i))) := by
  intro fuel
  induction fuel with
  | zero => intro x _; rfl
  | succ fuel ih =>
    intro x h
    rw [listGo_step blk x fuel (h x (Nat.le_refl x) (by omega))]
    rw [ih (x + 1) (fun y hy1 hy2 => h y (by omega) (by omega))]
    rw [List.range_succ_eq_map]
    simp only [List.map_cons, List.map_map, Nat.add_zero]
    congr 1
    apply List.map_congr_left
    intro a _
    simp only [Function.comp]
    have e : x + 1 + a = x + (a + 1) := by omega
    rw [e]

/-- Claim C5: scanning a directory block yields the entries in order,
stopping at the first zero-inode entry or after 64 entries, whichever
comes first.  A block starting with entry `(inode 5, name "foo")`
followed by a zero-inode entry yields exactly the one entry named `foo`
(the on-disk big-endian inode field `00 05` reads as the raw host value
`0x0500 = 1280` and swaps to 5), and the scan does not advance.  A block
of 64 entries none of which has inode number 0 yields all 64 entries and
the scan advances to the directory's next logical block. -/
theorem scanBlock_stops (blk : Nat → Nat) :
    (direntInoRaw blk 0 = 1280 →
     direntName blk 0 = [102, 111, 111, 0, 0, 0, 0, 0, 0, 0, 0, 0, 0, 0] →
     direntInoRaw blk 1 = 0 →
     scanBlock blk = [(5, [102, 111, 111, 0, 0, 0, 0, 0, 0, 0, 0, 0, 0, 0])] ∧
       scanAdvances blk = false) ∧
    ((∀ x, x < 64 → direntInoRaw blk x ≠ 0) →
     scanBlock blk = (List.range 64).map
        (fun x => (swap_hword (direntInoRaw blk x), direntName blk x)) ∧
       scanAdvances blk = true) := by
  constructor
  · intro h0 hn h1
    have hs : scanBlock blk = [(5, [102, 111, 111, 0, 0, 0, 0, 0, 0, 0, 0, 0, 0, 0])] := by
      show listGo blk 0 (63 + 1) = _
      rw [listGo_step blk 0 63 (by rw [h0]; decide)]
      rw [show (63 : Nat) = 62 + 1 from rfl, listGo_stop blk 1 62 h1]
      rw [h0, hn]
      decide
    refine ⟨hs, ?_⟩
    unfold scanAdvances
    rw [hs]
    decide
  · intro hall
    have hs : scanBlock blk = (List.range 64).map
        (fun x => (swap_hword (direntInoRaw blk x), direntName blk x)) := by
      show listGo blk 0 64 = _
      rw [listGo_all blk 64 0 (fun y _ hy2 => hall y (by omega))]
      simp
    refine ⟨hs, ?_⟩
    unfold scanAdvances
    rw [hs]
    simp

/-- Block bytes for the first C5 scenario: entry 0 is inode 5 (big-endian
bytes `00 05`) named `foo`, entry 1 has inode number 0. -/
def blkA : Nat → Nat := fun k =>
  if k = 1 then 5
  else if k = 2 then 102
  else if k = 3 then 111
  else if k = 4 then 111
  else 0

/-- Block bytes for the second C5 scenario: all 64 entries have nonzero
inode fields. -/
def blkB : Nat → Nat := fun k => if k % 16 = 1 then 1 else 0

/-- Concrete instances of `scanBlock_stops` on both scenario blocks. -/
theorem scanBlock_stops_witness :
    scanBlock blkA = [(5, [102, 111, 111, 0, 0, 0, 0, 0, 0, 0, 0, 0, 0, 0])] ∧
    scanAdvances blkA = false ∧
    scanAdvances blkB = true := by
  have ha := (scanBlock_stops blkA).1 (by decide) (by decide) (by decide)
  have hb := (scanBlock_stops blkB).2 (by decide)
  exact ⟨ha.1, ha.2, hb.2⟩

/- ### Path walking (claims C6 and C9) -/

/-- C-string comparison `strncmp(a, b, n) == 0`: compare byte for byte,
stopping at a difference, at a common NUL, or after `n` bytes.  The
search key is a NUL-terminated path component, modelled as its byte list
with `headD 0` supplying the terminator; the name field is the 14-byte
on-disk field, zero padded. -/
def cEq : List Nat → List Nat → Nat → Bool
  | _, _, 0 => true
  | a, b, n + 1 =>
    if a.headD 0 ≠ b.headD 0 then false
    else if a.headD 0 = 0 then true
    else cEq a.tail b.tail n

/-- Outcome of the per-block entry search loop of the path walk
(src/unixtool.c:340-381 and 606-652). -/
inductive ScanRes where
  | found (n : Nat)
  | absent
  | tooLong
  | exhausted
deriving DecidableEq

/-- The entry search loop `while (dir_entry->inode != 0 && x < 64)`
inside the path walk: stop with `absent` at a zero-inode entry, check
`strlen(pathpart) > 14` before each comparison (`tooLong`), report the
byte-swapped inode number on a `strncmp` match, and `exhausted` after 64
entries (the caller then advances to the next directory block).  Called
with `fuel = 64`, `x = 0`. -/
def scanFindGo (blk : Nat → Nat) (part : List Nat) : Nat → Nat → ScanRes
  | 0, _ => .exhausted
  | fuel + 1, x =>
    if direntInoRaw blk x = 0 then .absent
    else if 14 < part.length then .tooLong
    else if cEq part (direntName blk x) 14 then
      .found (swap_hword (direntInoRaw blk x))
    else scanFindGo blk part fuel (x + 1)

/-- Outcome of searching one component through a directory inode's
blocks. -/
inductive FindRes where
  | found (n : Nat)
  | absent
  | tooLong
  | eofBlock
  | ioerr
deriving DecidableEq

/-- The `while (!done)` block loop of the path walk: resolve directory
block `db`, scan its 64 entries, advance to the next block when the scan
exhausts them.  `eofBlock` is the `rv == 0 → return 0` path, `ioerr` the
`rv < 0` path.  `fuel` bounds the loop: `inode_block_read` returns the
unsupported-indirection error for every `db ≥ 65802`, so from any start
the loop ends within 65803 iterations and the `fuel = 0` branch (which
returns the same error outcome) is unreachable from `findInDir`. -/
def findInDirGo (img : Nat → Nat) (ino : Inode) (part : List Nat) :
    Nat → Nat → FindRes
  | 0, _ => .ioerr
  | fuel + 1, db =>
    match (inode_block_read (diskOf img) db ino).fst with
    | .eof => .eofBlock
    | .unsupported => .ioerr
    | .ok p =>
      match scanFindGo (diskOf img p) part 64 0 with
      | .found n => .found n
      | .tooLong => .tooLong
      | .absent => .absent
      | .exhausted => findInDirGo img ino part fuel (db + 1)

/-- Search one path component in a directory, starting at directory
block `db`. -/
def findInDir (img : Nat → Nat) (ino : Inode) (part : List Nat) (db : Nat) :
    FindRes :=
  findInDirGo img ino part 65803 db

/-- Result of the `unix_ls` path walk (src/unixtool.c:317-401):
`list ino` means the walk completed and the listing stage runs on
directory inode `ino`; `pathNotFound` is the
`No such file or directory (in image, path search)` return of -1;
`nameTooLong` the `No such file or directory (in image)` return of 0 for
an over-long component; `eofQuiet` the silent `rv == 0 → return 0`. -/
inductive LsRes where
  | list (ino : Inode)
  | pathNotFound
  | nameTooLong
  | eofQuiet
  | ioerr
deriving DecidableEq

/-- The `unix_ls` path walk: starting from a directory inode (inode 2 at
the top), search each component; descend on a DIR match (type 4),
resetting the block index to 0; any non-DIR match leaves
`dir_inode_number` zero, producing the not-found return of -1. -/
def unix_ls_walk (img : Nat → Nat) : List (List Nat) → Inode → Nat → LsRes
  | [], ino, _ => .list ino
  | part :: rest, ino, db =>
    match findInDir img ino part db with
    | .eofBlock => .eofQuiet
    | .tooLong => .nameTooLong
    | .ioerr => .ioerr
    | .absent => .pathNotFound
    | .found n =>
      if (read_inode img n).type = 4 then
        unix_ls_walk img rest (read_inode img n) 0
      else .pathNotFound

/-- Result of the `unix_read` path walk (src/unixtool.c:576-678):
`extract n ino` proceeds to the copy loop on file inode number `n`;
`regularFileEarly` is the `found regular file early` return of 0 (a FILE
inode resolved for a non-final component); `noFile` the
`(in image, file read)` return of 0 when the walk ends without a regular
file. -/
inductive ReadRes where
  | extract (n : Nat) (ino : Inode)
  | pathNotFound
  | nameTooLong
  | eofQuiet
  | regularFileEarly
  | noFile
  | ioerr
deriving DecidableEq

/-- The `unix_read` path walk.  `fnum`/`fino` model `file_inode_number`
and `file_inode`: every match is read into `file_inode`; a DIR match
(type 4) descends with block index 0; a FILE match (type 8) records the
file inode number; any other type leaves both `dir_inode_number` and
`file_inode_number` zero, producing the not-found return of -1.  A
pending component while `file_inode_number != 0` returns the
`found regular file early` outcome. -/
def unix_read_walk (img : Nat → Nat) :
    List (List Nat) → Inode → Nat → Nat → Inode → ReadRes
  | [], _, _, fnum, fino => if fnum = 0 then .noFile else .extract fnum fino
  | part :: rest, dino, db, fnum, fino =>
    if fnum ≠ 0 then .regularFileEarly
    else
      match findInDir img dino part db with
      | .eofBlock => .eofQuiet
      | .tooLong => .nameTooLong
      | .ioerr => .ioerr
      | .absent => .pathNotFound
      | .found n =>
        if (read_inode img n).type = 4 then
          unix_read_walk img rest (read_inode img n) 0 fnum (read_inode img n)
        else if (read_inode img n).type = 8 then
          unix_read_walk img rest dino db n (read_inode img n)
        else .pathNotFound

/-- Placeholder for the not-yet-assigned `file_inode` local of
`unix_read` (only observable after a FILE match overwrites it). -/
def inoNone : Inode :=
  { mode := 0, type := 0, nlink := 0, uid := 0, gid := 0, size := 0
    addr := [0, 0, 0, 0, 0, 0, 0, 0, 0, 0, 0, 0, 0]
    atime := 0, mtime := 0, ctime := 0 }

/- ### Claim C6 -/

/-- Scenario image for path resolution: root inode 2 (record at byte
2112 = 0x7C0 + 2*0x40) is a DIR with data block 50; block 50 holds the
single entry `bin -> inode 10`; inode 10 (record at byte 2624) is a DIR
with data block 51; block 51 holds the single entry `sh -> inode 42`;
inode 42 (record at byte 4672) is a FILE.  Inode numbers in directory
entries are stored big-endian (high byte first). -/
def img6 : Nat → Nat := fun k =>
  if k = 2112 then 0x40
  else if k = 2126 then 50
  else if k = 2624 then 0x40
  else if k = 2638 then 51
  else if k = 4672 then 0x80
  else if k = 51201 then 10
  else if k = 51202 then 98
  else if k = 51203 then 105
  else if k = 51204 then 110
  else if k = 52225 then 42
  else if k = 52226 then 115
  else if k = 52227 then 104
  else 0

/-- Path component `bin` as bytes. -/
def binP : List Nat := [98, 105, 110]

/-- Path component `sh` as bytes. -/
def shP : List Nat := [115, 104]

/-- Path component `nope` as bytes. -/
def nopeP : List Nat := [110, 111, 112, 101]

/-- Path component `x` as bytes. -/
def xP : List Nat := [120]

/-- Claim C6 counterexample: for the listing operation a FILE final
component is NOT the terminal result.  `unix_ls` on `/bin/sh` in the
scenario image ends in the not-found return of -1 (`dir_inode_number`
stays 0 for a non-DIR match), not in a walk result carrying inode 42. -/
theorem ls_file_terminal_cex :
    unix_ls_walk img6 [binP, shP] (read_inode img6 2) 0 = .pathNotFound ∧
    unix_ls_walk img6 [binP, shP] (read_inode img6 2) 0 ≠
      LsRes.list (read_inode img6 42) := by decide

/-- Claim C6 (amended): path resolution starts at root inode 2.  In the
scenario image, for the extraction operation `/bin/sh` terminates with
file inode 42 (a FILE final component is the terminal result),
`/bin/nope` fails as not-found, and `/bin/sh/x` fails with the
`found regular file early` outcome (a FILE non-final component).  For
the listing operation `/bin/nope` and `/bin/sh/x` fail as not-found, and
`/bin/sh` also fails as not-found: `unix_ls` treats a FILE final
component as not-found rather than as a terminal result. -/
theorem path_resolution_scenario :
    unix_read_walk img6 [binP, shP] (read_inode img6 2) 0 0 inoNone =
      .extract 42 (read_inode img6 42) ∧
    unix_read_walk img6 [binP, nopeP] (read_inode img6 2) 0 0 inoNone =
      .pathNotFound ∧
    unix_read_walk img6 [binP, shP, xP] (read_inode img6 2) 0 0 inoNone =
      .regularFileEarly ∧
    unix_ls_walk img6 [binP, nopeP] (read_inode img6 2) 0 = .pathNotFound ∧
    unix_ls_walk img6 [binP, shP, xP] (read_inode img6 2) 0 = .pathNotFound ∧
    unix_ls_walk img6 [binP, shP] (read_inode img6 2) 0 = .pathNotFound := by
  decide

/- ### Claim C9 -/

theorem scanFindGo_tooLong (blk : Nat → Nat) (part : List Nat)
    (h14 : 14 < part.length) (hz : direntInoRaw blk 0 ≠ 0) :
    scanFindGo blk part 64 0 = .tooLong := by
  show scanFindGo blk part (63 + 1) 0 = _
  simp [scanFindGo, hz, h14]

/-- Claim C9 (amended): a path component longer than 14 bytes fails with
the NameTooLong outcome only when the scan examines at least one entry,
i.e. when the first entry of the directory block being scanned has a
nonzero inode field; the length check sits inside the entry loop.  In
that case both walks report the over-long-name outcome (return 0,
`No such file or directory (in image)`). -/
theorem nameTooLong_needs_nonzero_entry (img : Nat → Nat) (ino fi : Inode)
    (part : List Nat) (db : Nat) (rest : List (List Nat)) (p : Nat)
    (h14 : 14 < part.length)
    (hok : (inode_block_read (diskOf img) db ino).fst = BlockRes.ok p)
    (hz : direntInoRaw (diskOf img p) 0 ≠ 0) :
    findInDir img ino part db = .tooLong ∧
    unix_ls_walk img (part :: rest) ino db = .nameTooLong ∧
    unix_read_walk img (part :: rest) ino db 0 fi = .nameTooLong := by
  have hscan := scanFindGo_tooLong (diskOf img p) part h14 hz
  have hfind : findInDir img ino part db = .tooLong := by
    unfold findInDir
    rw [show (65803 : Nat) = 65802 + 1 from rfl]
    simp only [findInDirGo, hok, hscan]
  refine ⟨hfind, ?_, ?_⟩
  · simp only [unix_ls_walk, hfind]
  · simp only [unix_read_walk, hfind]
    rfl

/-- Scenario image for the C9 witness: root inode 2 is a DIR with data
block 50 whose first entry has a nonzero inode field (inode 7, name
`a`). -/
def img9b : Nat → Nat := fun k =>
  if k = 2112 then 0x40
  else if k = 2126 then 50
  else if k = 51201 then 7
  else if k = 51202 then 97
  else 0

/-- Concrete instance of `nameTooLong_needs_nonzero_entry`: a 15-byte
component searched in a directory whose first entry is live fails with
the NameTooLong outcome in both walks. -/
theorem nameTooLong_needs_nonzero_entry_witness :
    findInDir img9b (read_inode img9b 2) (List.replicate 15 97) 0 = .tooLong ∧
    unix_ls_walk img9b [List.replicate 15 97] (read_inode img9b 2) 0 =
      .nameTooLong ∧
    unix_read_walk img9b [List.replicate 15 97] (read_inode img9b 2) 0 0 inoNone =
      .nameTooLong := by
  have h := nameTooLong_needs_nonzero_entry img9b (read_inode img9b 2) inoNone
    (List.replicate 15 97) 0 [] 50 (by decide) (by decide) (by decide)
  exact ⟨h.1, h.2.1, h.2.2⟩

/-- Scenario image for the C9 counterexample: root inode 2 is a DIR with
data block 50, and block 50 is all zero — its first entry has inode
number 0. -/
def img9 : Nat → Nat := fun k =>
  if k = 2112 then 0x40
  else if k = 2126 then 50
  else 0

/-- Claim C9 counterexample: a 15-byte component searched in a directory
whose current block begins with a zero-inode entry does NOT fail with
the NameTooLong outcome — the entry loop never runs, so the
`strlen(pathpart) > 14` check is skipped and both walks end in the
generic path-search not-found return of -1. -/
theorem nametoolong_skipped_cex :
    unix_ls_walk img9 [List.replicate 15 97] (read_inode img9 2) 0 =
      .pathNotFound ∧
    unix_ls_walk img9 [List.replicate 15 97] (read_inode img9 2) 0 ≠
      .nameTooLong ∧
    unix_read_walk img9 [List.replicate 15 97] (read_inode img9 2) 0 0 inoNone =
      .pathNotFound ∧
    unix_read_walk img9 [List.replicate 15 97] (read_inode img9 2) 0 0 inoNone ≠
      .nameTooLong := by decide

/- ### Claim C7 -/

/-- The superblock magic field as `main` reads it: `disk_block_read(1,
superblock_buffer)` places logical block 1 at bytes 1024..2047, the
`SuperBlock` overlay puts `magic` at structure offset 1016 (the sum of
all preceding field widths of the packed struct), and the comparison
`superblock->magic != 0x207E18FD` uses the host (little-endian) load
with no byte swap (src/unixtool.c:765-777). -/
def sbMagic (img : Nat → Nat) : Nat := load32 img (1024 + 1016)

/-- A command dispatched by `main` after superblock validation. -/
inductive Cmd where
  | lsCmd (parts : List (List Nat))
  | readCmd (parts : List (List Nat))

/-- Outcome of `main`: either the bad-magic rejection (return -1 before
any traversal), or the result of the dispatched operation. -/
inductive MainRes where
  | invalidImage
  | ranLs (r : LsRes)
  | ranRead (r : ReadRes)
deriving DecidableEq

/-- C `main` (src/unixtool.c:764-808): read block 1, reject the image
unless the magic equals 0x207E18FD, otherwise run the requested
operation from root inode 2. -/
def main_model (img : Nat → Nat) (cmd : Cmd) : MainRes :=
  if sbMagic img = 0x207E18FD then
    match cmd with
    | .lsCmd parts => .ranLs (unix_ls_walk img parts (read_inode img 2) 0)
    | .readCmd parts =>
      .ranRead (unix_read_walk img parts (read_inode img 2) 0 0 inoNone)
  else .invalidImage

/-- Claim C7: superblock validation reads logical block 1 and fails
exactly when the magic field there (fixed structure offset, no byte
swap) differs from 0x207E18FD; in particular an image whose block-1
magic is zero is rejected and neither the listing nor the extraction
operation proceeds on it. -/
theorem superblock_magic_gate :
    (∀ img cmd, main_model img cmd = .invalidImage ↔
      sbMagic img ≠ 0x207E18FD) ∧
    (∀ parts, main_model (fun _ => 0) (.lsCmd parts) = .invalidImage ∧
      main_model (fun _ => 0) (.readCmd parts) = .invalidImage) := by
  constructor
  · intro img cmd
    constructor
    · intro h hmag
      rw [main_model.eq_def, if_pos hmag] at h
      cases cmd <;> simp at h
    · intro hmag
      rw [main_model.eq_def, if_neg hmag]
  · intro parts
    have hm : sbMagic (fun _ => 0) ≠ 0x207E18FD := by decide
    exact ⟨by rw [main_model.eq_def, if_neg hm],
      by rw [main_model.eq_def, if_neg hm]⟩

/-- Concrete instance of `superblock_magic_gate` on the all-zero image. -/
theorem superblock_magic_gate_witness :
    main_model (fun _ => 0) (Cmd.lsCmd [[97]]) = MainRes.invalidImage :=
  (superblock_magic_gate.1 (fun _ => 0) (Cmd.lsCmd [[97]])).mpr (by decide)

/- ### Claim C8 -/

/-- C `disk_block_read` (src/unixtool.c:181-204) against a finite image
of `img.length` bytes: `lseek` to `adr * 0x400` (which succeeds even
past end of file), then `read(disk_fd, buf, 1024)`, which delivers the
available bytes — at most 1024, fewer (possibly zero) near or past the
end — and the function returns `io_res`, the byte count, unchanged;
`-1` is returned only when the seek or read call itself errors, which
the ideal-host model cannot produce. -/
def disk_block_read_c (img : List Nat) (adr : Nat) : Int × List Nat :=
  let bytes := (img.drop (adr * 1024)).take 1024
  ((bytes.length : Int), bytes)

set_option maxRecDepth 20000 in
/-- Claim C8 counterexample: a short read is NOT an error.  On a
1536-byte image, reading block 1 returns byte count 512 — a
non-negative result the callers treat as success — with only 512 bytes
delivered, so the function does return success with a partially filled
buffer. -/
theorem short_read_success_cex :
    (disk_block_read_c (List.replicate 1536 7) 1).fst = 512 ∧
    ¬ (disk_block_read_c (List.replicate 1536 7) 1).fst < 0 ∧
    (disk_block_read_c (List.replicate 1536 7) 1).snd.length = 512 := by
  decide

/-- Claim C8 (amended): the block read seeks to `index * 1024` bytes and
reads up to 1024 bytes: it returns the full 1024 bytes whenever they are
available, byte for byte from the seek position, and otherwise returns
the smaller (possibly zero) available count as a non-negative success
value — short reads are not turned into the -1 error, which is reserved
for failures of the seek or read call itself. -/
theorem disk_block_read_short (img : List Nat) (adr : Nat) :
    (disk_block_read_c img adr).fst =
      ((min 1024 (img.length - adr * 1024) : Nat) : Int) ∧
    0 ≤ (disk_block_read_c img adr).fst ∧
    (∀ k, k < min 1024 (img.length - adr * 1024) →
      (disk_block_read_c img adr).snd.getD k 0 = img.getD (adr * 1024 + k) 0) ∧
    (adr * 1024 + 1024 ≤ img.length → (disk_block_read_c img adr).fst = 1024) := by
  have hlen : ((img.drop (adr * 1024)).take 1024).length =
      min 1024 (img.length - adr * 1024) := by simp
  refine ⟨?_, ?_, ?_, ?_⟩
  · simp only [disk_block_read_c, hlen]
  · simp only [disk_block_read_c]
    omega
  · intro k hk
    simp only [disk_block_read_c, List.getD_eq_getElem?_getD]
    rw [List.getElem?_take_of_lt (by omega), List.getElem?_drop]
  · intro h
    simp only [disk_block_read_c, hlen]
    have e : min 1024 (img.length - adr * 1024) = 1024 := by omega
    rw [e]
    rfl

/-- Concrete instance of `disk_block_read_short`: with 2048 bytes
available, block 0 reads the full 1024 bytes, byte for byte. -/
theorem disk_block_read_short_witness :
    (disk_block_read_c (List.replicate 2048 3) 0).fst = 1024 ∧
    (disk_block_read_c (List.replicate 2048 3) 0).snd.getD 5 0 = 3 := by
  have h := disk_block_read_short (List.replicate 2048 3) 0
  refine ⟨h.2.2.2 (by rw [List.length_replicate]; norm_num), ?_⟩
  rw [h.2.2.1 5 (by rw [List.length_replicate]; norm_num)]
  decide

/- ### Claim C10 -/

/-- The destination file after `unix_read`: the C code opens it with
`open(filename, O_RDWR | O_CREAT, 0660)` — no `O_TRUNC` — and writes the
extracted bytes sequentially from offset 0 (src/unixtool.c:561, 704), so
the written bytes overwrite the prefix of the pre-existing content and
everything beyond them survives. -/
def dest_after (old written : List Nat) : List Nat :=
  written ++ old.drop written.length

/-- Claim C10: extraction opens the destination without truncating it.
For a pre-existing destination of length L and a successful extraction
writing S bytes with S < L, the destination keeps length L, its bytes at
positions S..L-1 are unchanged, and it is therefore not byte-for-byte
equal to the extracted file. -/
theorem dest_not_truncated (disk : Disk) (ino : Inode) (old out : List Nat)
    (hrun : unix_read_copy disk ino = .ok out)
    (hlt : out.length < old.length) :
    (dest_after old out).length = old.length ∧
    (∀ k, out.length ≤ k → (dest_after old out).getD k 0 = old.getD k 0) ∧
    dest_after old out ≠ out := by
  refine ⟨?_, ?_, ?_⟩
  · simp only [dest_after, List.length_append, List.length_drop]
    omega
  · intro k hk
    simp only [dest_after, List.getD_eq_getElem?_getD]
    rw [List.getElem?_append_right hk, List.getElem?_drop]
    have e : out.length + (k - out.length) = k := by omega
    rw [e]
  · intro he
    have hl := congrArg List.length he
    simp only [dest_after, List.length_append, List.length_drop] at hl
    omega

set_option maxRecDepth 20000 in
/-- Concrete instance of `dest_not_truncated`: extracting the 3-byte
file of `diskC`/`inoC` over a 5-byte destination leaves the 2 trailing
bytes in place. -/
theorem dest_not_truncated_witness :
    (dest_after [9, 9, 9, 9, 9] [0, 1, 2]).length = 5 ∧
    (dest_after [9, 9, 9, 9, 9] [0, 1, 2]).getD 4 0 = 9 ∧
    dest_after [9, 9, 9, 9, 9] [0, 1, 2] ≠ [0, 1, 2] := by
  have h := dest_not_truncated diskC inoC [9, 9, 9, 9, 9] [0, 1, 2]
    (by decide) (by decide)
  exact ⟨h.1, h.2.1 4 (by decide), h.2.2⟩

end Unixtool
